import Mathlib

/-!
Shallow embedding of the PII/SPII detection and risk-scoring engine of the
Raven backend (internal/services/pii_service.go and the compliance-report
aggregation of internal/services/har_service.go).

Go strings are modelled as lists of characters (`GoStr`).  The detection
patterns come from an external configuration file (config/regexpii.json,
not part of the repository), so the engine is parameterised by a
`PIIConfig` whose compiled regular expressions are modelled as plain
computable matchers: a field-based pattern carries an optional
`valueRegex : GoStr → Bool` (Go `regexp.MatchString`), a keyword pattern an
optional matcher on the field name, and a value-only pattern an optional
`findAllMatches : GoStr → List GoStr` modelling Go
`regexp.FindAllString(text, -1)` (the list of successive non-overlapping
matches, in order).  The Go standard-library JSON parser and net/url
functions are likewise passed in as parameters (`jsonParse`,
`queryUnescape`, `parseURL`); `time.Now()` is passed as a `Nat` value
`now`, stored in each finding's timestamp field.

Two further modelling decisions matter below.  Go maps (request headers,
the three pattern maps, JSON objects, query parameters) are embedded as
association lists; such a list fixes ONE iteration order, while Go
re-randomizes the range order on every loop, so a single Go map is
represented by the set of permutations of its list and order-sensitive
conclusions must be read per chosen order (C3 exhibits two orders of one
map diverging).  Go's `int` is 64-bit and wraps on overflow; the risk-score
accumulation therefore uses `goIntAdd`, addition reduced into the signed
64-bit range.
-/

/-- Go string, as its sequence of characters. -/
abbrev GoStr : Type := List Char

/-- String literal helper. -/
def gs (s : String) : GoStr := s.toList

/-- Go `strings.ToLower`, character by character. -/
def goToLower (s : GoStr) : GoStr := s.map Char.toLower

/-- Go `strings.Contains s sub`: `sub` occurs contiguously inside `s`. -/
def goContains (s sub : GoStr) : Bool :=
  match s with
  | [] => sub.isEmpty
  | _ :: rest => sub.isPrefixOf s || goContains rest sub

/-- Go `strings.Split` on a single separator character (keeps empty segments). -/
def goSplit (sep : Char) : GoStr → List GoStr
  | [] => [[]]
  | c :: rest =>
    match goSplit sep rest with
    | [] => [[]]
    | seg :: segs => if c = sep then [] :: seg :: segs else (c :: seg) :: segs

/-- Decimal rendering of a natural number, for Go `fmt.Sprintf` with a `%d` verb. -/
def natToGoStr (n : Nat) : GoStr := (Nat.repr n).toList

/-- A field-based pattern (pii_service.go `PIIPattern` used in field-based mode):
field-name fragments plus an optional compiled value regex, modelled as a
boolean matcher (`MatchString`); `none` when the pattern had no compilable
`valuePattern` (the Go code then finds no entry in `compiledRegex`). -/
structure FieldPattern where
  name : GoStr
  fieldNames : List GoStr
  valueRegex : Option (GoStr → Bool)
  riskLevel : GoStr
  category : GoStr
  tags : List GoStr

/-- A value-only pattern: optional compiled regex modelled by its
`FindAllString(text, -1)` behaviour — the ordered list of successive
non-overlapping matches found in the text. -/
structure ValuePattern where
  name : GoStr
  findAllMatches : Option (GoStr → List GoStr)
  riskLevel : GoStr
  category : GoStr
  tags : List GoStr

/-- A keyword-based pattern: optional compiled regex on the field name. -/
structure KeywordPattern where
  name : GoStr
  nameRegex : Option (GoStr → Bool)
  riskLevel : GoStr
  category : GoStr
  tags : List GoStr

/-- The loaded detection configuration (pii_service.go `PIIConfig`): the three
pattern maps and the `risk_levels` map as association lists.  Each list fixes
one iteration order of the corresponding Go map; Go itself re-randomizes the
range order on every loop, so theorems about a fixed `PIIConfig` speak about
one such order. -/
structure PIIConfig where
  fieldBasedPatterns : List FieldPattern
  valueOnlyPatterns : List ValuePattern
  keywordBasedPatterns : List KeywordPattern
  riskLevels : List (GoStr × Int)

/-- pii_service.go `PIIDetectionResult`.  The timestamp is the `now` value of
the call that created the finding. -/
structure PIIDetectionResult where
  piiType : GoStr
  detectedValue : GoStr
  fieldName : GoStr
  location : GoStr
  detectionMode : GoStr
  riskLevel : GoStr
  category : GoStr
  tags : List GoStr
  timestamp : Nat
deriving DecidableEq

/-- pii_service.go `maskSensitiveValue`: short values are fully masked, longer
ones keep the first two and last two characters. -/
def maskSensitiveValue (value : GoStr) : GoStr :=
  if value.length ≤ 4 then List.replicate value.length '*'
  else value.take 2 ++ List.replicate (value.length - 4) '*' ++ value.drop (value.length - 2)

/-- The fixed card-related field-name fragments of `detectPIIInText`. -/
def cardFields : List GoStr :=
  [gs "cardnumber", gs "ccnumber", gs "creditcard", gs "card", gs "cc",
   gs "visa", gs "visacard", gs "mastercard", gs "maestro"]

/-- The per-pattern skip condition of `detectPIIInText`: outside `url_path`,
suppress value-only scanning when the lowercased field name contains a
card-related fragment.  (It does not depend on the pattern itself.) -/
def valueOnlySkip (fieldNameLower location : GoStr) : Bool :=
  if location ≠ gs "url_path" then cardFields.any (fun cf => goContains fieldNameLower cf)
  else false

/-- One value-only finding, as built in the loop body of `detectPIIInText`
(the `FieldName` field is left at its zero value, the empty string). -/
def mkValueOnlyFinding (pat : ValuePattern) (now : Nat) (location mtext : GoStr) :
    PIIDetectionResult :=
  { piiType := pat.name, detectedValue := maskSensitiveValue mtext, fieldName := []
    location := location, detectionMode := gs "value_only", riskLevel := pat.riskLevel
    category := pat.category, tags := pat.tags, timestamp := now }

/-- The pattern loop of `detectPIIInText`. -/
def valueOnlyScan (now : Nat) (fieldNameLower text location : GoStr) :
    List ValuePattern → List PIIDetectionResult
  | [] => []
  | pat :: rest =>
    if valueOnlySkip fieldNameLower location then
      valueOnlyScan now fieldNameLower text location rest
    else
      (match pat.findAllMatches with
       | some findAll => (findAll text).map (mkValueOnlyFinding pat now location)
       | none => []) ++ valueOnlyScan now fieldNameLower text location rest

/-- pii_service.go `detectPIIInText`. -/
def detectPIIInText (cfg : PIIConfig) (now : Nat) (fieldNameLower text location : GoStr) :
    List PIIDetectionResult :=
  valueOnlyScan now fieldNameLower text location cfg.valueOnlyPatterns

/-- Whether a field-based pattern fires in `detectPIIInField`: some target
field name is (case-insensitively) contained in the field name, the pattern
has a compiled value regex, and the regex matches the value. -/
def fieldPatternHit (fieldNameLower fieldValue : GoStr) (pat : FieldPattern) : Bool :=
  pat.fieldNames.any (fun targetField => goContains fieldNameLower (goToLower targetField)) &&
    (match pat.valueRegex with
     | some regex => regex fieldValue
     | none => false)

/-- The single finding built on a field-based match in `detectPIIInField`. -/
def mkFieldBasedFinding (pat : FieldPattern) (now : Nat) (fieldName fieldValue location : GoStr) :
    PIIDetectionResult :=
  { piiType := pat.name, detectedValue := maskSensitiveValue fieldValue, fieldName := fieldName
    location := location, detectionMode := gs "field_based", riskLevel := pat.riskLevel
    category := pat.category, tags := pat.tags, timestamp := now }

/-- A keyword-based finding, as built in `detectPIIInField`. -/
def mkKeywordFinding (pat : KeywordPattern) (now : Nat) (fieldName fieldValue location : GoStr) :
    PIIDetectionResult :=
  { piiType := pat.name, detectedValue := maskSensitiveValue fieldValue, fieldName := fieldName
    location := location, detectionMode := gs "keyword_based", riskLevel := pat.riskLevel
    category := pat.category, tags := pat.tags, timestamp := now }

/-- The keyword-pattern loop of `detectPIIInField`: every pattern with a
compiled regex matching the (unlowered) field name contributes a finding. -/
def keywordScan (now : Nat) (fieldName fieldValue location : GoStr) :
    List KeywordPattern → List PIIDetectionResult
  | [] => []
  | pat :: rest =>
    (match pat.nameRegex with
     | some regex => if regex fieldName then
          [mkKeywordFinding pat now fieldName fieldValue location] else []
     | none => []) ++ keywordScan now fieldName fieldValue location rest

/-- pii_service.go `detectPIIInField`.  The field-based loop returns on its
first hit (skipping the keyword loop and the value-only fallback); otherwise
the keyword findings are followed by the value-only findings re-tagged with
the field name. -/
def detectPIIInField (cfg : PIIConfig) (now : Nat) (fieldName fieldValue location : GoStr) :
    List PIIDetectionResult :=
  let fieldNameLower := goToLower fieldName
  match cfg.fieldBasedPatterns.find? (fieldPatternHit fieldNameLower fieldValue) with
  | some pat => [mkFieldBasedFinding pat now fieldName fieldValue location]
  | none =>
    keywordScan now fieldName fieldValue location cfg.keywordBasedPatterns ++
      (detectPIIInText cfg now fieldNameLower fieldValue location).map
        (fun finding => { finding with fieldName := fieldName })

/-- JSON values as produced by Go `json.Unmarshal` into an empty interface.
An object's field list fixes one iteration order of the underlying Go map
(which Go randomizes per range loop). -/
inductive JSONValue where
  | null
  | bool (b : Bool)
  | num (n : Int)
  | str (s : GoStr)
  | arr (items : List JSONValue)
  | obj (fields : List (GoStr × JSONValue))

mutual
/-- pii_service.go `analyzeJSONObject`: the type switch dispatches only on
objects and arrays; every other value (including a string that is not an
object field's value) falls through with no findings. -/
def analyzeJSONObject (cfg : PIIConfig) (now : Nat) :
    JSONValue → GoStr → GoStr → List PIIDetectionResult
  | JSONValue.obj fields, pfx, location => analyzeJSONFields cfg now fields pfx location
  | JSONValue.arr items, pfx, location => analyzeJSONItems cfg now items pfx location 0
  | _, _, _ => []
/-- The object branch of `analyzeJSONObject`: string values go to
`detectPIIInField` under their own key; object and array values recurse
under the dotted key; all other values are ignored. -/
def analyzeJSONFields (cfg : PIIConfig) (now : Nat) :
    List (GoStr × JSONValue) → GoStr → GoStr → List PIIDetectionResult
  | [], _, _ => []
  | (key, value) :: rest, pfx, location =>
    let fullKey := if pfx = [] then key else pfx ++ gs "." ++ key
    (match value with
     | JSONValue.str sval => detectPIIInField cfg now key sval location
     | JSONValue.obj fs => analyzeJSONObject cfg now (JSONValue.obj fs) fullKey location
     | JSONValue.arr its => analyzeJSONObject cfg now (JSONValue.arr its) fullKey location
     | _ => []) ++ analyzeJSONFields cfg now rest pfx location
/-- The array branch of `analyzeJSONObject`: recurse into every element under
an indexed prefix. -/
def analyzeJSONItems (cfg : PIIConfig) (now : Nat) :
    List JSONValue → GoStr → GoStr → Nat → List PIIDetectionResult
  | [], _, _, _ => []
  | item :: rest, pfx, location, i =>
    analyzeJSONObject cfg now item (pfx ++ gs "[" ++ natToGoStr i ++ gs "]") location ++
      analyzeJSONItems cfg now rest pfx location (i + 1)
end

/-- pii_service.go `analyzeJSONForPII`; `jsonParse` models `json.Unmarshal`
(`none` on a parse error). -/
def analyzeJSONForPII (cfg : PIIConfig) (jsonParse : GoStr → Option JSONValue) (now : Nat)
    (jsonStr location : GoStr) : List PIIDetectionResult :=
  match jsonParse jsonStr with
  | none => detectPIIInText cfg now [] jsonStr location
  | some jsonData => analyzeJSONObject cfg now jsonData [] location

/-- pii_service.go `isJSON`: `json.Unmarshal` succeeds. -/
def isJSON (jsonParse : GoStr → Option JSONValue) (s : GoStr) : Bool :=
  (jsonParse s).isSome

/-- The sentinel the HAR service substitutes for non-UTF-8 bodies. -/
def invalidBodySentinel : GoStr := gs "[Invalid UTF-8 or Binary Data]"

/-- pii_service.go `analyzeRequestBody` (its appended findings). -/
def analyzeRequestBody (cfg : PIIConfig) (jsonParse : GoStr → Option JSONValue) (now : Nat)
    (body : GoStr) : List PIIDetectionResult :=
  if body = [] ∨ body = invalidBodySentinel then []
  else if isJSON jsonParse body then
    analyzeJSONForPII cfg jsonParse now body (gs "request_body")
  else detectPIIInText cfg now [] body (gs "request_body")

/-- pii_service.go `analyzeResponseBody` (its appended findings). -/
def analyzeResponseBody (cfg : PIIConfig) (jsonParse : GoStr → Option JSONValue) (now : Nat)
    (body : GoStr) : List PIIDetectionResult :=
  if body = [] ∨ body = invalidBodySentinel then []
  else if isJSON jsonParse body then
    analyzeJSONForPII cfg jsonParse now body (gs "response_body")
  else detectPIIInText cfg now [] body (gs "response_body")

/-- pii_service.go `inferFieldNameFromURL`. -/
def inferFieldNameFromURL (pathSegments : List GoStr) (currentIndex : Nat) : GoStr :=
  if currentIndex = 0 ∨ pathSegments.length ≤ currentIndex then gs "url_path_segment"
  else
    let previousSegment := goToLower (pathSegments.getD (currentIndex - 1) [])
    if previousSegment = gs "apikey" ∨ previousSegment = gs "api-key" ∨
        previousSegment = gs "api_key" then gs "apikey"
    else if previousSegment = gs "token" ∨ previousSegment = gs "access-token" ∨
        previousSegment = gs "access_token" then gs "token"
    else if previousSegment = gs "key" then gs "key"
    else if previousSegment = gs "id" ∨ previousSegment = gs "userid" ∨
        previousSegment = gs "user-id" ∨ previousSegment = gs "user_id" then gs "id"
    else if previousSegment = gs "email" then gs "email"
    else if previousSegment = gs "phone" then gs "phone"
    else if previousSegment = gs "ssn" then gs "ssn"
    else if previousSegment = gs "sin" then gs "sin"
    else if previousSegment = gs "auth" ∨ previousSegment = gs "authorization" then
      (if currentIndex + 1 < pathSegments.length ∧
          (goToLower (pathSegments.getD (currentIndex + 1) []) = gs "apikey" ∨
           goToLower (pathSegments.getD (currentIndex + 1) []) = gs "key") then gs "apikey"
       else gs "auth_token")
    else if goContains previousSegment (gs "key") then gs "apikey"
    else if goContains previousSegment (gs "token") then gs "token"
    else if goContains previousSegment (gs "id") then gs "id"
    else gs "url_path_segment"

/-- The path-segment loop of `analyzeURL`: non-empty segments are matched
under their inferred field name, and segments whose inferred name is the
generic fallback additionally get a value-only scan re-tagged
`url_segment_<i>`. -/
def analyzeURLSegments (cfg : PIIConfig) (now : Nat) (pathSegments : List GoStr) :
    Nat → List GoStr → List PIIDetectionResult
  | _, [] => []
  | i, seg :: rest =>
    (if seg ≠ [] then
      let fieldName := inferFieldNameFromURL pathSegments i
      detectPIIInField cfg now fieldName seg (gs "url_path") ++
        (if fieldName = gs "url_path_segment" then
          (detectPIIInText cfg now [] seg (gs "url_path")).map
            (fun finding => { finding with fieldName := gs "url_segment_" ++ natToGoStr i })
         else [])
     else []) ++ analyzeURLSegments cfg now pathSegments (i + 1) rest

/-- The inner loop over one query parameter's values in `analyzeURL`. -/
def analyzeQueryValues (cfg : PIIConfig) (now : Nat) (key : GoStr) :
    List GoStr → List PIIDetectionResult
  | [] => []
  | value :: rest =>
    detectPIIInField cfg now key value (gs "query_params") ++
      analyzeQueryValues cfg now key rest

/-- The query-parameter loop of `analyzeURL` (`parsedURL.Query()` as an
association list of key/values). -/
def analyzeQueryParams (cfg : PIIConfig) (now : Nat) :
    List (GoStr × List GoStr) → List PIIDetectionResult
  | [] => []
  | (key, values) :: rest =>
    analyzeQueryValues cfg now key values ++ analyzeQueryParams cfg now rest

/-- The result of Go `url.Parse`: the path and the parsed query parameters. -/
structure ParsedURL where
  path : GoStr
  queryParams : List (GoStr × List GoStr)

/-- pii_service.go `analyzeURL` (its appended findings); `queryUnescape`
models `url.QueryUnescape` and `parseURL` models `url.Parse`, each `none` on
error.  A decode error falls back to the raw string; a parse error returns
with no findings. -/
def analyzeURL (cfg : PIIConfig) (queryUnescape : GoStr → Option GoStr)
    (parseURL : GoStr → Option ParsedURL) (now : Nat) (urlString : GoStr) :
    List PIIDetectionResult :=
  let decodedURL := (queryUnescape urlString).getD urlString
  match parseURL decodedURL with
  | none => []
  | some parsed =>
    let pathSegments := goSplit '/' parsed.path
    analyzeURLSegments cfg now pathSegments 0 pathSegments ++
      analyzeQueryParams cfg now parsed.queryParams

/-- The header loop of `analyzeRequestHeaders` (the headers map in one range
order; Go draws a fresh random order per call). -/
def analyzeRequestHeaders (cfg : PIIConfig) (now : Nat) :
    List (GoStr × GoStr) → List PIIDetectionResult
  | [] => []
  | (fieldName, fieldValue) :: rest =>
    detectPIIInField cfg now fieldName fieldValue (gs "request_headers") ++
      analyzeRequestHeaders cfg now rest

/-- The `risk_levels` map lookup of `calculateRiskMetrics`. -/
def lookupRiskLevel : List (GoStr × Int) → GoStr → Option Int
  | [], _ => none
  | (levelName, weightVal) :: rest, level =>
    if levelName = level then some weightVal else lookupRiskLevel rest level

/-- Reduction of an integer into the signed 64-bit range, the wrap-around of
Go's `int` on 64-bit platforms. -/
def goIntWrap (x : Int) : Int := (x + 2 ^ 63) % 2 ^ 64 - 2 ^ 63

/-- Go 64-bit `int` addition (wrapping on overflow). -/
def goIntAdd (a b : Int) : Int := goIntWrap (a + b)

/-- The accumulation loop of `calculateRiskMetrics`: running total (a Go
`int`, accumulated with wrapping 64-bit addition), current highest-risk
label, and current maximum single weight. -/
def riskLoop (riskLevels : List (GoStr × Int)) :
    List PIIDetectionResult → Int → GoStr → Int → Int × GoStr × Int
  | [], totalScore, highestRisk, maxRiskValue => (totalScore, highestRisk, maxRiskValue)
  | finding :: rest, totalScore, highestRisk, maxRiskValue =>
    match lookupRiskLevel riskLevels finding.riskLevel with
    | some riskValue =>
      if riskValue > maxRiskValue then
        riskLoop riskLevels rest (goIntAdd totalScore riskValue) finding.riskLevel riskValue
      else
        riskLoop riskLevels rest (goIntAdd totalScore riskValue) highestRisk maxRiskValue
    | none => riskLoop riskLevels rest totalScore highestRisk maxRiskValue

/-- pii_service.go `calculateRiskMetrics`. -/
def calculateRiskMetrics (cfg : PIIConfig) (findings : List PIIDetectionResult) :
    Int × GoStr :=
  if findings.length = 0 then (0, gs "NONE")
  else
    let r := riskLoop cfg.riskLevels findings 0 (gs "LOW") 0
    (r.1, r.2.1)

/-- db.UserAPIData, restricted to the fields `AnalyzePIIInAPIData` reads.
The headers map is an association list fixing one range order; Go randomizes
the order of `range` over the map on every call, so one map is represented by
any permutation of this list. -/
structure UserAPIData where
  apiEndpoint : GoStr
  method : GoStr
  url : GoStr
  headers : List (GoStr × GoStr)
  requestBody : GoStr
  responseBody : GoStr

/-- pii_service.go `PIIAnalysisResult`. -/
structure PIIAnalysisResult where
  apiEndpoint : GoStr
  method : GoStr
  url : GoStr
  findings : List PIIDetectionResult
  totalCount : Nat
  riskScore : Int
  highestRisk : GoStr
  timestamp : Nat

/-- pii_service.go `AnalyzePIIInAPIData`: headers, request body, response
body, then URL, followed by the risk metrics. -/
def AnalyzePIIInAPIData (cfg : PIIConfig) (jsonParse : GoStr → Option JSONValue)
    (queryUnescape : GoStr → Option GoStr) (parseURL : GoStr → Option ParsedURL)
    (now : Nat) (apiData : UserAPIData) : PIIAnalysisResult :=
  let findings :=
    analyzeRequestHeaders cfg now apiData.headers ++
    analyzeRequestBody cfg jsonParse now apiData.requestBody ++
    analyzeResponseBody cfg jsonParse now apiData.responseBody ++
    analyzeURL cfg queryUnescape parseURL now apiData.url
  let metrics := calculateRiskMetrics cfg findings
  { apiEndpoint := apiData.apiEndpoint, method := apiData.method, url := apiData.url
    findings := findings, totalCount := findings.length
    riskScore := metrics.1, highestRisk := metrics.2, timestamp := now }

/-- db.PIIFinding, restricted to the fields the compliance-report loop of
har_service.go reads. -/
structure PIIFindingStored where
  riskScore : Int
  piiCount : Int
  highestRisk : GoStr
deriving DecidableEq

/-- One stored record with PII, as returned by `db.FindAPIDataWithPII`. -/
structure APIDataWithPII where
  apiEndpoint : GoStr
  method : GoStr
  piiFindings : List PIIFindingStored
deriving DecidableEq

/-- db.RiskyEndpoint. -/
structure RiskyEndpoint where
  apiEndpoint : GoStr
  method : GoStr
  riskScore : Int
  piiCount : Int
  highestRisk : GoStr
deriving DecidableEq

/-- The entry built for one record in `GeneratePIIComplianceReport`. -/
def mkRiskyEndpoint (apiData : APIDataWithPII) (finding : PIIFindingStored) : RiskyEndpoint :=
  { apiEndpoint := apiData.apiEndpoint, method := apiData.method
    riskScore := finding.riskScore, piiCount := finding.piiCount
    highestRisk := finding.highestRisk }

/-- The record loop of `GeneratePIIComplianceReport`: each record contributes
its first finding with risk score above 5, if any (the inner loop breaks on
the first hit). -/
def collectRiskyEndpoints : List APIDataWithPII → List RiskyEndpoint
  | [] => []
  | apiData :: rest =>
    (match apiData.piiFindings.find? (fun finding => finding.riskScore > 5) with
     | some finding => [mkRiskyEndpoint apiData finding]
     | none => []) ++ collectRiskyEndpoints rest

/-- `topRiskyEndpoints` of `GeneratePIIComplianceReport`: collected entries,
truncated to the first ten when there are more. -/
def topRiskyEndpoints (apisWithPII : List APIDataWithPII) : List RiskyEndpoint :=
  let collected := collectRiskyEndpoints apisWithPII
  if collected.length > 10 then collected.take 10 else collected

/-- The configured weight of a finding's risk level (0 when the level is not
in the `risk_levels` map). -/
def findingWeight (cfg : PIIConfig) (finding : PIIDetectionResult) : Int :=
  (lookupRiskLevel cfg.riskLevels finding.riskLevel).getD 0

/-- The largest single configured weight over a findings list (0 for the
empty list). -/
def maxWeight (cfg : PIIConfig) (findings : List PIIDetectionResult) : Int :=
  (findings.map (findingWeight cfg)).foldl max 0

/-- Whether a finding's risk level is present in the `risk_levels` map with a
positive weight. -/
def riskLevelConfiguredPos (cfg : PIIConfig) (finding : PIIDetectionResult) : Bool :=
  match lookupRiskLevel cfg.riskLevels finding.riskLevel with
  | some w => decide (0 < w)
  | none => false

mutual
/-- The (key, string-value) pairs of object fields reachable in a JSON value
by recursing through objects and arrays — exactly the pairs the
`analyzeJSONObject` type switch hands to `detectPIIInField`.  A string that
is a direct array element or the top-level value contributes nothing. -/
def objStringPairs : JSONValue → List (GoStr × GoStr)
  | JSONValue.obj fields => objStringPairsFields fields
  | JSONValue.arr items => objStringPairsItems items
  | _ => []
/-- Object-field part of `objStringPairs`. -/
def objStringPairsFields : List (GoStr × JSONValue) → List (GoStr × GoStr)
  | [] => []
  | (key, value) :: rest =>
    (match value with
     | JSONValue.str sval => [(key, sval)]
     | JSONValue.obj fs => objStringPairs (JSONValue.obj fs)
     | JSONValue.arr its => objStringPairs (JSONValue.arr its)
     | _ => []) ++ objStringPairsFields rest
/-- Array part of `objStringPairs`. -/
def objStringPairsItems : List JSONValue → List (GoStr × GoStr)
  | [] => []
  | item :: rest => objStringPairs item ++ objStringPairsItems rest
end

/-- A JSON value that is neither an object nor an array (string, number,
boolean, or null). -/
def isScalarJSON : JSONValue → Bool
  | JSONValue.arr _ => false
  | JSONValue.obj _ => false
  | _ => true

/-! Concrete instantiations used by witnesses and counterexamples: a small
configuration with one field-based email pattern, one value-only email
pattern and two keyword patterns, matching via simple substring tests.  -/

/-- A toy email matcher standing in for a compiled value regex. -/
def emailRegex : GoStr → Bool := fun s => goContains s (gs "@")

/-- A toy `FindAllString` standing in for a compiled value-only regex: the
whole text when it contains an `@`, else no match. -/
def emailFindAll : GoStr → List GoStr := fun s => if goContains s (gs "@") then [s] else []

/-- Concrete field-based pattern: field name contains `email`, value must
look like an email. -/
def fpEmail : FieldPattern where
  name := gs "email"
  fieldNames := [gs "email"]
  valueRegex := some emailRegex
  riskLevel := gs "HIGH"
  category := gs "contact"
  tags := [gs "pii"]

/-- Concrete value-only pattern for email-like text. -/
def vpEmail : ValuePattern where
  name := gs "email_v"
  findAllMatches := some emailFindAll
  riskLevel := gs "MEDIUM"
  category := gs "contact"
  tags := [gs "pii"]

/-- Concrete keyword pattern matching field names containing `email`. -/
def kpEmail : KeywordPattern where
  name := gs "kw_email"
  nameRegex := some (fun s => goContains s (gs "email"))
  riskLevel := gs "LOW"
  category := gs "contact"
  tags := []

/-- Concrete keyword pattern matching field names containing `mail`. -/
def kpMail : KeywordPattern where
  name := gs "kw_mail"
  nameRegex := some (fun s => goContains s (gs "mail"))
  riskLevel := gs "LOW"
  category := gs "contact"
  tags := []

/-- The standard risk-level weights used by the concrete configurations. -/
def stdRiskLevels : List (GoStr × Int) :=
  [(gs "LOW", 1), (gs "MEDIUM", 3), (gs "HIGH", 5), (gs "CRITICAL", 10)]

/-- Concrete configuration with the field-based email pattern enabled. -/
def cfgEmail : PIIConfig where
  fieldBasedPatterns := [fpEmail]
  valueOnlyPatterns := [vpEmail]
  keywordBasedPatterns := [kpEmail, kpMail]
  riskLevels := stdRiskLevels

/-- Concrete configuration with no field-based patterns (so the keyword and
value-only stages are reached). -/
def cfgNoField : PIIConfig where
  fieldBasedPatterns := []
  valueOnlyPatterns := [vpEmail]
  keywordBasedPatterns := [kpEmail, kpMail]
  riskLevels := stdRiskLevels

/-- An identity stand-in for `url.QueryUnescape` that always succeeds. -/
def quOk : GoStr → Option GoStr := fun s => some s

/-- A stand-in for `url.Parse` that returns the whole string as the path with
no query parameters. -/
def puPathOnly : GoStr → Option ParsedURL := fun d => some { path := d, queryParams := [] }

/-- A stand-in for `url.Parse` that always fails. -/
def puFail : GoStr → Option ParsedURL := fun _ => none

/-- A stand-in for `json.Unmarshal` that recognises exactly the body `42` (a
top-level JSON number). -/
def jpNum42 : GoStr → Option JSONValue :=
  fun s => if s = gs "42" then some (JSONValue.num 42) else none

/-- A concrete stored record for the compliance-report scenario: endpoint
`/e<n>` with one finding of the given record-level risk score. -/
def apiRecC8 (n : Nat) (score : Int) : APIDataWithPII where
  apiEndpoint := gs "/e" ++ natToGoStr n
  method := gs "GET"
  piiFindings := [{ riskScore := score, piiCount := 1, highestRisk := gs "HIGH" }]

/-- Twelve records with PII of which exactly three (numbers 2, 5 and 9) have
a finding with risk score above 5. -/
def apisC8 : List APIDataWithPII :=
  [apiRecC8 0 3, apiRecC8 1 4, apiRecC8 2 6, apiRecC8 3 2, apiRecC8 4 5,
   apiRecC8 5 9, apiRecC8 6 1, apiRecC8 7 0, apiRecC8 8 5, apiRecC8 9 7,
   apiRecC8 10 2, apiRecC8 11 3]

/-- A stand-in for `url.QueryUnescape` that always fails. -/
def quFail : GoStr → Option GoStr := fun _ => none

/-- A concrete record whose URL path carries an email after an email
segment. -/
def recC9 : UserAPIData where
  apiEndpoint := gs "/email"
  method := gs "GET"
  url := gs "/email/a@b.com"
  headers := [(gs "email", gs "a@b.com")]
  requestBody := []
  responseBody := []

/-- A concrete findings list over the standard risk levels: LOW, HIGH,
MEDIUM, HIGH (two findings tie at the largest weight 5). -/
def fsC2 : List PIIDetectionResult :=
  [mkKeywordFinding kpEmail 0 (gs "email") (gs "a@b.com") (gs "request_headers"),
   mkFieldBasedFinding fpEmail 0 (gs "email") (gs "a@b.com") (gs "request_headers"),
   mkValueOnlyFinding vpEmail 0 (gs "request_body") (gs "a@b.com"),
   mkFieldBasedFinding fpEmail 0 (gs "email2") (gs "c@d.com") (gs "response_body")]

/-- Configuration whose risk_levels map carries MEDIUM with weight 0 and
nothing else (no patterns). -/
def cfgZeroWeight : PIIConfig where
  fieldBasedPatterns := []
  valueOnlyPatterns := []
  keywordBasedPatterns := []
  riskLevels := [(gs "MEDIUM", 0)]

/-- A single concrete finding whose risk level is MEDIUM. -/
def fMediumZero : PIIDetectionResult where
  piiType := gs "m"
  detectedValue := gs "**"
  fieldName := gs "f"
  location := gs "request_body"
  detectionMode := gs "value_only"
  riskLevel := gs "MEDIUM"
  category := gs "c"
  tags := []
  timestamp := 0

/-- Field-based pattern hitting field name x with any value, risk label A. -/
def fpMatchX : FieldPattern where
  name := gs "pA"
  fieldNames := [gs "x"]
  valueRegex := some (fun _ => true)
  riskLevel := gs "A"
  category := gs "c"
  tags := []

/-- Field-based pattern hitting field name y with any value, risk label B. -/
def fpMatchY : FieldPattern where
  name := gs "pB"
  fieldNames := [gs "y"]
  valueRegex := some (fun _ => true)
  riskLevel := gs "B"
  category := gs "c"
  tags := []

/-- Configuration with two field-based patterns whose risk labels A and B tie
at weight 5. -/
def cfgAB : PIIConfig where
  fieldBasedPatterns := [fpMatchX, fpMatchY]
  valueOnlyPatterns := []
  keywordBasedPatterns := []
  riskLevels := [(gs "A", 5), (gs "B", 5)]

/-- A record whose two-entry headers map is written in one range order. -/
def recAB1 : UserAPIData where
  apiEndpoint := gs "/e"
  method := gs "GET"
  url := []
  headers := [(gs "x", gs "v"), (gs "y", gs "w")]
  requestBody := []
  responseBody := []

/-- The same record with the headers map written in the other range order. -/
def recAB2 : UserAPIData where
  apiEndpoint := gs "/e"
  method := gs "GET"
  url := []
  headers := [(gs "y", gs "w"), (gs "x", gs "v")]
  requestBody := []
  responseBody := []

theorem take_append_of_length {α : Type} (a b : List α) (n : Nat) (h : a.length = n) :
    (a ++ b).take n = a := by
  subst h; exact List.take_left _ _

theorem drop_append_of_length {α : Type} (a b : List α) (n : Nat) (h : a.length = n) :
    (a ++ b).drop n = b := by
  subst h; exact List.drop_left _ _

/-- C7: maskSensitiveValue is length-preserving; values of length at most 4
are fully masked; longer values keep exactly their first two and last two
characters with every character in between masked. -/
theorem C7_mask_spec (v : GoStr) :
    (maskSensitiveValue v).length = v.length ∧
    (v.length ≤ 4 → ∀ c ∈ maskSensitiveValue v, c = '*') ∧
    (4 < v.length →
      (maskSensitiveValue v).take 2 = v.take 2 ∧
      (maskSensitiveValue v).drop (v.length - 2) = v.drop (v.length - 2) ∧
      ∀ c ∈ ((maskSensitiveValue v).drop 2).take (v.length - 4), c = '*') := by
  unfold maskSensitiveValue
  by_cases h : v.length ≤ 4
  · rw [if_pos h]
    exact ⟨List.length_replicate _ _, fun _ c hc => List.eq_of_mem_replicate hc,
      fun h4 => absurd h4 (by omega)⟩
  · rw [if_neg h]
    push_neg at h
    have h2 : (v.take 2).length = 2 := by rw [List.length_take]; omega
    have hmid : (List.replicate (v.length - 4) '*').length = v.length - 4 :=
      List.length_replicate _ _
    have hab : (v.take 2 ++ List.replicate (v.length - 4) '*').length = v.length - 2 := by
      rw [List.length_append, h2, hmid]; omega
    refine ⟨?_, fun hle => absurd hle (by omega), fun _ => ⟨?_, ?_, ?_⟩⟩
    · rw [List.append_assoc, List.length_append, List.length_append, h2, hmid,
        List.length_drop]
      omega
    · rw [List.append_assoc]
      exact (take_append_of_length _ _ 2 h2).trans rfl
    · exact drop_append_of_length _ _ (v.length - 2) hab
    · intro c hc
      rw [List.append_assoc,
        drop_append_of_length _ _ 2 h2,
        take_append_of_length _ _ (v.length - 4) hmid] at hc
      exact List.eq_of_mem_replicate hc

/-- C7 witness: the theorem instantiated at the values abc and abcdef. -/
theorem C7_mask_spec_witness :
    (maskSensitiveValue (gs "abc")).length = 3 ∧
    (∀ c ∈ maskSensitiveValue (gs "abc"), c = '*') ∧
    (maskSensitiveValue (gs "abcdef")).take 2 = gs "ab" ∧
    (maskSensitiveValue (gs "abcdef")).drop 4 = gs "ef" := by
  have h1 := C7_mask_spec (gs "abc")
  have h2 := C7_mask_spec (gs "abcdef")
  refine ⟨h1.1.trans (by decide), h1.2.1 (by decide), ?_, ?_⟩
  · exact ((h2.2.2 (by decide)).1).trans (by decide)
  · have h3 := (h2.2.2 (by decide)).2.1
    have h4 : (gs "abcdef").length - 2 = 4 := by decide
    rw [h4] at h3
    exact h3.trans (by decide)

theorem collectRiskyEndpoints_eq (apis : List APIDataWithPII) :
    collectRiskyEndpoints apis
      = apis.filterMap (fun a =>
          (a.piiFindings.find? (fun f => f.riskScore > 5)).map (mkRiskyEndpoint a)) := by
  induction apis with
  | nil => rfl
  | cons a rest ih =>
    rw [collectRiskyEndpoints, List.filterMap_cons, ih]
    cases h : a.piiFindings.find? (fun f => f.riskScore > 5) with
    | none => simp [h]
    | some f => simp [h]

/-- C8: topRiskyEndpoints takes, for each stored record with PII, the first
finding whose risk score exceeds 5 (at most one entry per record), keeps the
records' order, and truncates to the first ten entries without sorting; when
at most ten records qualify, it is exactly the per-record first-qualifying
list. -/
theorem C8_topRisky_spec (apis : List APIDataWithPII) :
    topRiskyEndpoints apis
      = (apis.filterMap (fun a =>
          (a.piiFindings.find? (fun f => f.riskScore > 5)).map (mkRiskyEndpoint a))).take 10 ∧
    ((apis.filterMap (fun a =>
          (a.piiFindings.find? (fun f => f.riskScore > 5)).map (mkRiskyEndpoint a))).length ≤ 10 →
      topRiskyEndpoints apis
        = apis.filterMap (fun a =>
            (a.piiFindings.find? (fun f => f.riskScore > 5)).map (mkRiskyEndpoint a))) := by
  unfold topRiskyEndpoints
  rw [collectRiskyEndpoints_eq]
  constructor
  · by_cases hlen : (apis.filterMap (fun a =>
        (a.piiFindings.find? (fun f => f.riskScore > 5)).map (mkRiskyEndpoint a))).length > 10
    · rw [if_pos hlen]
    · rw [if_neg hlen]
      exact (List.take_of_length_le (by omega)).symm
  · intro hle
    rw [if_neg (by omega)]

/-- C8 witness: twelve records with PII of which exactly three exceed the
risk-5 threshold; the report contains exactly those three, once each, in
input order. -/
theorem C8_topRisky_spec_witness :
    topRiskyEndpoints apisC8
      = [{ apiEndpoint := gs "/e2", method := gs "GET", riskScore := 6, piiCount := 1,
           highestRisk := gs "HIGH" },
         { apiEndpoint := gs "/e5", method := gs "GET", riskScore := 9, piiCount := 1,
           highestRisk := gs "HIGH" },
         { apiEndpoint := gs "/e9", method := gs "GET", riskScore := 7, piiCount := 1,
           highestRisk := gs "HIGH" }] := by
  exact ((C8_topRisky_spec apisC8).2 (by decide)).trans (by decide)

theorem keywordScan_eq (now : Nat) (fieldName fieldValue location : GoStr)
    (pats : List KeywordPattern) :
    keywordScan now fieldName fieldValue location pats
      = (pats.filter (fun pat =>
            match pat.nameRegex with
            | some regex => regex fieldName
            | none => false)).map
          (fun pat => mkKeywordFinding pat now fieldName fieldValue location) := by
  induction pats with
  | nil => rfl
  | cons pat rest ih =>
    rw [keywordScan, List.filter_cons, ih]
    cases hr : pat.nameRegex with
    | none => simp [hr]
    | some regex =>
      by_cases hm : regex fieldName
      · simp [hr, hm]
      · simp [hr, hm]

theorem keywordScan_mode (now : Nat) (fieldName fieldValue location : GoStr)
    (pats : List KeywordPattern) :
    ∀ f ∈ keywordScan now fieldName fieldValue location pats,
      f.detectionMode = gs "keyword_based" := by
  rw [keywordScan_eq]
  intro f hf
  rcases List.mem_map.mp hf with ⟨pat, _, rfl⟩
  rfl

theorem valueOnlyScan_skip (now : Nat) (fieldNameLower text location : GoStr)
    (hskip : valueOnlySkip fieldNameLower location = true) (pats : List ValuePattern) :
    valueOnlyScan now fieldNameLower text location pats = [] := by
  induction pats with
  | nil => rfl
  | cons pat rest ih => rw [valueOnlyScan, if_pos hskip]; exact ih

theorem valueOnlyScan_noSkip (now : Nat) (fieldNameLower text location : GoStr)
    (hskip : valueOnlySkip fieldNameLower location = false) (pats : List ValuePattern) :
    valueOnlyScan now fieldNameLower text location pats
      = pats.flatMap (fun pat =>
          match pat.findAllMatches with
          | some findAll => (findAll text).map (mkValueOnlyFinding pat now location)
          | none => []) := by
  induction pats with
  | nil => rfl
  | cons pat rest ih =>
    rw [valueOnlyScan, if_neg (by simp [hskip]), List.flatMap_cons, ih]

theorem detectPIIInField_some (cfg : PIIConfig) (now : Nat)
    (fieldName fieldValue location : GoStr) (pat : FieldPattern)
    (hfind : cfg.fieldBasedPatterns.find? (fieldPatternHit (goToLower fieldName) fieldValue)
      = some pat) :
    detectPIIInField cfg now fieldName fieldValue location
      = [mkFieldBasedFinding pat now fieldName fieldValue location] := by
  unfold detectPIIInField
  simp only [hfind]

theorem detectPIIInField_none (cfg : PIIConfig) (now : Nat)
    (fieldName fieldValue location : GoStr)
    (hfind : cfg.fieldBasedPatterns.find? (fieldPatternHit (goToLower fieldName) fieldValue)
      = none) :
    detectPIIInField cfg now fieldName fieldValue location
      = keywordScan now fieldName fieldValue location cfg.keywordBasedPatterns
        ++ (detectPIIInText cfg now (goToLower fieldName) fieldValue location).map
            (fun finding => { finding with fieldName := fieldName }) := by
  unfold detectPIIInField
  simp only [hfind]

/-- C6: for every value-only pattern, scanning is suppressed exactly when the
location is not url_path and the lowercased field name contains one of the
fixed card-related substrings (then no value-only finding at all is
produced); otherwise each pattern emits one finding per non-overlapping
regex match of the text, in order.  In particular a field named
creditCardNumber with value 4111111111111111 outside url_path yields no
value-only finding under any configuration. -/
theorem C6_valueOnly_cardSuppression (cfg : PIIConfig) (now : Nat)
    (fieldNameLower text location : GoStr) :
    (valueOnlySkip fieldNameLower location = true →
      detectPIIInText cfg now fieldNameLower text location = []) ∧
    (valueOnlySkip fieldNameLower location = false →
      detectPIIInText cfg now fieldNameLower text location
        = cfg.valueOnlyPatterns.flatMap (fun pat =>
            match pat.findAllMatches with
            | some findAll => (findAll text).map (mkValueOnlyFinding pat now location)
            | none => [])) ∧
    ((detectPIIInField cfg now (gs "creditCardNumber") (gs "4111111111111111")
        (gs "request_body")).filter (fun f => f.detectionMode = gs "value_only") = []) := by
  refine ⟨fun h => valueOnlyScan_skip now fieldNameLower text location h _,
    fun h => valueOnlyScan_noSkip now fieldNameLower text location h _, ?_⟩
  cases hfind : cfg.fieldBasedPatterns.find?
      (fieldPatternHit (goToLower (gs "creditCardNumber")) (gs "4111111111111111")) with
  | some pat =>
    rw [detectPIIInField_some cfg now _ _ _ pat hfind]
    refine List.filter_eq_nil_iff.mpr (fun f hf => ?_)
    rcases List.mem_singleton.mp hf with rfl
    show ¬ decide ((mkFieldBasedFinding pat now _ _ _).detectionMode = gs "value_only") = true
    simp [mkFieldBasedFinding]
    decide
  | none =>
    rw [detectPIIInField_none cfg now _ _ _ hfind, List.filter_append]
    have hskip : valueOnlySkip (goToLower (gs "creditCardNumber")) (gs "request_body") = true := by
      decide
    rw [detectPIIInText, valueOnlyScan_skip _ _ _ _ hskip]
    rw [List.filter_eq_nil_iff.mpr (fun f hf => by
      have hm := keywordScan_mode now (gs "creditCardNumber") (gs "4111111111111111")
        (gs "request_body") cfg.keywordBasedPatterns f hf
      simp [hm, gs])]
    simp

/-- C6 witness: both suppression branches at concrete inputs — the card field
suppresses the email value-only pattern; an anonymous field does not. -/
theorem C6_valueOnly_cardSuppression_witness :
    detectPIIInText cfgEmail 0 (gs "cardnumber") (gs "a@b.com") (gs "request_body") = [] ∧
    detectPIIInText cfgEmail 0 [] (gs "a@b.com") (gs "request_body")
      = [mkValueOnlyFinding vpEmail 0 (gs "request_body") (gs "a@b.com")] := by
  constructor
  · exact (C6_valueOnly_cardSuppression cfgEmail 0 (gs "cardnumber") (gs "a@b.com")
      (gs "request_body")).1 (by decide)
  · exact ((C6_valueOnly_cardSuppression cfgEmail 0 [] (gs "a@b.com")
      (gs "request_body")).2.1 (by decide)).trans (by decide)

/-- C5: field-based detection is single-hit — on the first field-based match
(field-name containment plus value regex) exactly one field-based finding is
returned and nothing else runs for that field; when no field-based pattern
matched, every keyword pattern whose regex matches the field name emits its
own finding (multi-hit), followed by the re-tagged value-only findings. -/
theorem C5_singleHit_multiHit (cfg : PIIConfig) (now : Nat)
    (fieldName fieldValue location : GoStr) :
    (∀ pat, cfg.fieldBasedPatterns.find? (fieldPatternHit (goToLower fieldName) fieldValue)
        = some pat →
      detectPIIInField cfg now fieldName fieldValue location
        = [mkFieldBasedFinding pat now fieldName fieldValue location]) ∧
    (cfg.fieldBasedPatterns.find? (fieldPatternHit (goToLower fieldName) fieldValue) = none →
      detectPIIInField cfg now fieldName fieldValue location
        = (cfg.keywordBasedPatterns.filter (fun pat =>
              match pat.nameRegex with
              | some regex => regex fieldName
              | none => false)).map
            (fun pat => mkKeywordFinding pat now fieldName fieldValue location)
          ++ (detectPIIInText cfg now (goToLower fieldName) fieldValue location).map
              (fun finding => { finding with fieldName := fieldName })) := by
  constructor
  · intro pat hfind
    exact detectPIIInField_some cfg now fieldName fieldValue location pat hfind
  · intro hfind
    rw [detectPIIInField_none cfg now fieldName fieldValue location hfind, keywordScan_eq]

/-- C5 witness: with the field-based email pattern present, the field email
yields exactly one field-based finding; with no field-based patterns, the
same field matches both keyword patterns (two findings) plus the re-tagged
value-only finding. -/
theorem C5_singleHit_multiHit_witness :
    detectPIIInField cfgEmail 0 (gs "email") (gs "a@b.com") (gs "request_body")
      = [mkFieldBasedFinding fpEmail 0 (gs "email") (gs "a@b.com") (gs "request_body")] ∧
    detectPIIInField cfgNoField 0 (gs "email") (gs "a@b.com") (gs "request_body")
      = [mkKeywordFinding kpEmail 0 (gs "email") (gs "a@b.com") (gs "request_body"),
         mkKeywordFinding kpMail 0 (gs "email") (gs "a@b.com") (gs "request_body"),
         { mkValueOnlyFinding vpEmail 0 (gs "request_body") (gs "a@b.com") with
             fieldName := gs "email" }] := by
  constructor
  · exact (C5_singleHit_multiHit cfgEmail 0 (gs "email") (gs "a@b.com")
      (gs "request_body")).1 fpEmail rfl
  · exact ((C5_singleHit_multiHit cfgNoField 0 (gs "email") (gs "a@b.com")
      (gs "request_body")).2 rfl).trans (by decide)

/-- C1 counterexample: under the concrete email configuration, the field
email with value a@b.com in a request body produces a field-based match, and
detectPIIInField returns only that one field-based finding — no value-only
finding is appended even though the value-only scan of the value by itself is
non-empty.  This contradicts the claim that the value-only scan always
additionally runs and its findings are appended. -/
theorem C1_counterexample :
    detectPIIInField cfgEmail 0 (gs "email") (gs "a@b.com") (gs "request_body")
      = [mkFieldBasedFinding fpEmail 0 (gs "email") (gs "a@b.com") (gs "request_body")] ∧
    (detectPIIInField cfgEmail 0 (gs "email") (gs "a@b.com") (gs "request_body")).filter
        (fun f => f.detectionMode = gs "value_only") = [] ∧
    detectPIIInText cfgEmail 0 (goToLower (gs "email")) (gs "a@b.com") (gs "request_body")
      ≠ [] := by
  refine ⟨by decide, by decide, by decide⟩

/-- C1 amended: the value-only scan of the value runs, and its findings are
appended re-tagged with the field name, exactly when no field-based pattern
matched; after a field-based match the function returns just the single
field-based finding, with no value-only scan. -/
theorem C1_valueOnlyFallback (cfg : PIIConfig) (now : Nat)
    (fieldName fieldValue location : GoStr) :
    (cfg.fieldBasedPatterns.find? (fieldPatternHit (goToLower fieldName) fieldValue) = none →
      detectPIIInField cfg now fieldName fieldValue location
        = keywordScan now fieldName fieldValue location cfg.keywordBasedPatterns
          ++ (detectPIIInText cfg now (goToLower fieldName) fieldValue location).map
              (fun finding => { finding with fieldName := fieldName })) ∧
    (∀ pat, cfg.fieldBasedPatterns.find? (fieldPatternHit (goToLower fieldName) fieldValue)
        = some pat →
      detectPIIInField cfg now fieldName fieldValue location
        = [mkFieldBasedFinding pat now fieldName fieldValue location]) := by
  exact ⟨detectPIIInField_none cfg now fieldName fieldValue location,
    fun pat => detectPIIInField_some cfg now fieldName fieldValue location pat⟩

/-- C1 amended witness: the fallback branch at a field with no field-based
match, and the single-hit branch at a field with one. -/
theorem C1_valueOnlyFallback_witness :
    detectPIIInField cfgNoField 0 (gs "user_mail") (gs "a@b.com") (gs "request_body")
      = [mkKeywordFinding kpMail 0 (gs "user_mail") (gs "a@b.com") (gs "request_body"),
         { mkValueOnlyFinding vpEmail 0 (gs "request_body") (gs "a@b.com") with
             fieldName := gs "user_mail" }] ∧
    detectPIIInField cfgEmail 0 (gs "Email") (gs "x@y.io") (gs "query_params")
      = [mkFieldBasedFinding fpEmail 0 (gs "Email") (gs "x@y.io") (gs "query_params")] := by
  constructor
  · exact ((C1_valueOnlyFallback cfgNoField 0 (gs "user_mail") (gs "a@b.com")
      (gs "request_body")).1 rfl).trans (by decide)
  · exact (C1_valueOnlyFallback cfgEmail 0 (gs "Email") (gs "x@y.io")
      (gs "query_params")).2 fpEmail rfl

/-- C10: a request or response body that parses as JSON whose top-level value
is a scalar (string, number, boolean or null) produces zero findings: it
passes the isJSON check, so the value-only text fallback is skipped, and the
JSON walker has no dispatch case for a top-level scalar. -/
theorem C10_scalarJSONBody (cfg : PIIConfig) (jsonParse : GoStr → Option JSONValue)
    (now : Nat) (body : GoStr) (v : JSONValue)
    (hparse : jsonParse body = some v) (hscalar : isScalarJSON v = true) :
    analyzeRequestBody cfg jsonParse now body = [] ∧
    analyzeResponseBody cfg jsonParse now body = [] := by
  have hjson : isJSON jsonParse body = true := by rw [isJSON, hparse]; rfl
  have hobj : ∀ location : GoStr, analyzeJSONObject cfg now v [] location = [] := by
    intro location
    cases v <;> first
      | rfl
      | exact absurd hscalar (by simp [isScalarJSON])
  constructor
  · unfold analyzeRequestBody
    by_cases hempty : body = [] ∨ body = invalidBodySentinel
    · rw [if_pos hempty]
    · rw [if_neg hempty, if_pos hjson]
      unfold analyzeJSONForPII
      rw [hparse]
      exact hobj _
  · unfold analyzeResponseBody
    by_cases hempty : body = [] ∨ body = invalidBodySentinel
    · rw [if_pos hempty]
    · rw [if_neg hempty, if_pos hjson]
      unfold analyzeJSONForPII
      rw [hparse]
      exact hobj _

/-- C10 witness: the body 42 under a parser recognising it as the JSON number
42 yields no findings. -/
theorem C10_scalarJSONBody_witness :
    analyzeRequestBody cfgEmail jpNum42 0 (gs "42") = [] ∧
    analyzeResponseBody cfgEmail jpNum42 0 (gs "42") = [] :=
  C10_scalarJSONBody cfgEmail jpNum42 0 (gs "42") (JSONValue.num 42) rfl rfl

/-- C9 counterexample: when url.Parse fails, analyzeURL returns no findings
at all — it does not fall back to analysing the raw URL string, whose
analysis (with a working parser) is non-empty. -/
theorem C9_counterexample :
    analyzeURL cfgEmail quOk puFail 0 (gs "/email/a@b.com") = [] ∧
    analyzeURL cfgEmail quOk puPathOnly 0 (gs "/email/a@b.com") ≠ [] := by
  exact ⟨rfl, by decide⟩

/-- C9 amended: a percent-decode failure is non-fatal and the raw URL string
is used in place of the decoded one; a parse failure makes URL analysis
return no findings (it is skipped, not retried on the raw string), while the
record's header and body findings are unaffected. -/
theorem C9_urlErrorHandling (cfg : PIIConfig) (jsonParse : GoStr → Option JSONValue)
    (queryUnescape : GoStr → Option GoStr) (parseURL : GoStr → Option ParsedURL)
    (now : Nat) (apiData : UserAPIData) :
    (queryUnescape apiData.url = none →
      analyzeURL cfg queryUnescape parseURL now apiData.url
        = analyzeURL cfg quOk parseURL now apiData.url) ∧
    (parseURL ((queryUnescape apiData.url).getD apiData.url) = none →
      analyzeURL cfg queryUnescape parseURL now apiData.url = [] ∧
      (AnalyzePIIInAPIData cfg jsonParse queryUnescape parseURL now apiData).findings
        = analyzeRequestHeaders cfg now apiData.headers
          ++ analyzeRequestBody cfg jsonParse now apiData.requestBody
          ++ analyzeResponseBody cfg jsonParse now apiData.responseBody) := by
  constructor
  · intro hqu
    simp [analyzeURL, hqu, quOk]
  · intro hpu
    have hurl : analyzeURL cfg queryUnescape parseURL now apiData.url = [] := by
      simp [analyzeURL, hpu]
    refine ⟨hurl, ?_⟩
    show (AnalyzePIIInAPIData cfg jsonParse queryUnescape parseURL now apiData).findings = _
    unfold AnalyzePIIInAPIData
    simp only [hurl, List.append_nil]

/-- C9 witness: the theorem applied to a concrete record, with a failing
decoder for the first part and a failing parser for the second. -/
theorem C9_urlErrorHandling_witness :
    analyzeURL cfgEmail quFail puPathOnly 0 recC9.url
      = analyzeURL cfgEmail quOk puPathOnly 0 recC9.url ∧
    analyzeURL cfgEmail quOk puFail 0 recC9.url = [] ∧
    (AnalyzePIIInAPIData cfgEmail jpNum42 quOk puFail 0 recC9).findings
      = analyzeRequestHeaders cfgEmail 0 recC9.headers
        ++ analyzeRequestBody cfgEmail jpNum42 0 recC9.requestBody
        ++ analyzeResponseBody cfgEmail jpNum42 0 recC9.responseBody := by
  have h1 := (C9_urlErrorHandling cfgEmail jpNum42 quFail puPathOnly 0 recC9).1 rfl
  have h2 := (C9_urlErrorHandling cfgEmail jpNum42 quOk puFail 0 recC9).2 rfl
  exact ⟨h1, h2.1, h2.2⟩

theorem analyzeJSONObject_pairs (cfg : PIIConfig) (now : Nat) :
    ∀ (v : JSONValue) (pfx location : GoStr),
      analyzeJSONObject cfg now v pfx location
        = (objStringPairs v).flatMap (fun p => detectPIIInField cfg now p.1 p.2 location) := by
  refine analyzeJSONObject.induct cfg now
    (fun v pfx location => analyzeJSONObject cfg now v pfx location
      = (objStringPairs v).flatMap (fun p => detectPIIInField cfg now p.1 p.2 location))
    (fun items pfx location i => analyzeJSONItems cfg now items pfx location i
      = (objStringPairsItems items).flatMap (fun p => detectPIIInField cfg now p.1 p.2 location))
    (fun fields pfx location => analyzeJSONFields cfg now fields pfx location
      = (objStringPairsFields fields).flatMap (fun p => detectPIIInField cfg now p.1 p.2 location))
    ?_ ?_ ?_ ?_ ?_ ?_ ?_
  · intro fields pfx location ih
    simpa only [analyzeJSONObject, objStringPairs] using ih
  · intro items pfx location ih
    simpa only [analyzeJSONObject, objStringPairs] using ih
  · intro t x x1 hobj harr
    cases t with
    | obj fields => exact absurd rfl (hobj fields)
    | arr items => exact absurd rfl (harr items)
    | null => simp [analyzeJSONObject, objStringPairs]
    | bool b => simp [analyzeJSONObject, objStringPairs]
    | num n => simp [analyzeJSONObject, objStringPairs]
    | str s => simp [analyzeJSONObject, objStringPairs]
  · intro pfx location i
    simp [analyzeJSONItems, objStringPairsItems]
  · intro item rest pfx location i ih1 ih2
    simp only [analyzeJSONItems, objStringPairsItems, List.flatMap_append]
    rw [ih1, ih2]
  · intro pfx location
    simp [analyzeJSONFields, objStringPairsFields]
  · intro key value rest pfx location
    intro fullKey hmatch ih
    cases value with
    | str sval =>
      simp only [analyzeJSONFields, objStringPairsFields, List.flatMap_append,
        List.flatMap_cons, List.flatMap_nil, List.append_nil, ih]
    | obj fs =>
      dsimp only at hmatch
      simp only [analyzeJSONFields, objStringPairsFields, List.flatMap_append]
      rw [ih, hmatch]
    | arr its =>
      dsimp only at hmatch
      simp only [analyzeJSONFields, objStringPairsFields, List.flatMap_append]
      rw [ih, hmatch]
    | null =>
      simp only [analyzeJSONFields, objStringPairsFields, List.nil_append]
      rw [ih]
    | bool b =>
      simp only [analyzeJSONFields, objStringPairsFields, List.nil_append]
      rw [ih]
    | num n =>
      simp only [analyzeJSONFields, objStringPairsFields, List.nil_append]
      rw [ih]

/-- C4 counterexample: a string that is a direct element of an array is never
scanned — the object with field x holding the array [a@b.com] produces no
findings, although feeding that string to the field matcher (which the claim
asserts happens for every reachable string) does produce a finding. -/
theorem C4_counterexample :
    analyzeJSONObject cfgEmail 0
      (JSONValue.obj [(gs "x", JSONValue.arr [JSONValue.str (gs "a@b.com")])]) []
      (gs "request_body") = [] ∧
    detectPIIInField cfgEmail 0 (gs "x") (gs "a@b.com") (gs "request_body") ≠ [] := by
  exact ⟨by decide, by decide⟩

/-- C4 amended: number, boolean and null leaves never produce findings, and
traversal recurses through nested objects and arrays, feeding to the field
matcher exactly the strings that are values of object fields (at any depth);
strings that are direct array elements, or the top-level value, are not
scanned. -/
theorem C4_jsonTraversal (cfg : PIIConfig) (now : Nat) (v : JSONValue)
    (pfx location : GoStr) :
    analyzeJSONObject cfg now v pfx location
      = (objStringPairs v).flatMap (fun p => detectPIIInField cfg now p.1 p.2 location) ∧
    (isScalarJSON v = true → analyzeJSONObject cfg now v pfx location = []) := by
  refine ⟨analyzeJSONObject_pairs cfg now v pfx location, fun hscalar => ?_⟩
  cases v with
  | obj fields => exact absurd hscalar (by simp [isScalarJSON])
  | arr items => exact absurd hscalar (by simp [isScalarJSON])
  | null => rfl
  | bool b => rfl
  | num n => rfl
  | str s => rfl

/-- C4 amended witness: the characterization applied to a three-level nested
object (the deep string is found under its key) and the scalar case at a
numeric leaf. -/
theorem C4_jsonTraversal_witness :
    analyzeJSONObject cfgEmail 0
      (JSONValue.obj [(gs "a", JSONValue.obj [(gs "b",
        JSONValue.obj [(gs "email", JSONValue.str (gs "a@b.com"))])])]) []
      (gs "request_body")
      = [mkFieldBasedFinding fpEmail 0 (gs "email") (gs "a@b.com") (gs "request_body")] ∧
    analyzeJSONObject cfgEmail 0 (JSONValue.num 7) [] (gs "request_body") = [] := by
  constructor
  · exact (C4_jsonTraversal cfgEmail 0
      (JSONValue.obj [(gs "a", JSONValue.obj [(gs "b",
        JSONValue.obj [(gs "email", JSONValue.str (gs "a@b.com"))])])]) []
      (gs "request_body")).1.trans (by decide)
  · exact (C4_jsonTraversal cfgEmail 0 (JSONValue.num 7) [] (gs "request_body")).2 rfl

theorem foldl_max_init_le (ws : List Int) : ∀ m0 : Int, m0 ≤ ws.foldl max m0 := by
  induction ws with
  | nil => intro m0; exact le_refl _
  | cons w ws ih => intro m0; exact le_trans (le_max_left m0 w) (ih (max m0 w))

theorem mem_le_foldl_max (ws : List Int) : ∀ (m0 w : Int), w ∈ ws → w ≤ ws.foldl max m0 := by
  induction ws with
  | nil => intro m0 w hw; cases hw
  | cons x ws ih =>
    intro m0 w hw
    rcases List.mem_cons.mp hw with rfl | hw
    · exact le_trans (le_max_right m0 w) (foldl_max_init_le ws (max m0 w))
    · exact ih (max m0 x) w hw

theorem sum_nonneg_of_forall_nonneg (ws : List Int) (h : ∀ w ∈ ws, 0 ≤ w) :
    0 ≤ ws.sum := by
  induction ws with
  | nil => exact le_refl 0
  | cons w rest ih =>
    rw [List.sum_cons]
    have h1 := h w (List.mem_cons_self w rest)
    have h2 := ih (fun y hy => h y (List.mem_cons_of_mem w hy))
    omega

theorem sum_pos_of_forall_pos (ws : List Int) (hne : ws ≠ [])
    (hpos : ∀ w ∈ ws, 0 < w) : 0 < ws.sum := by
  cases ws with
  | nil => exact absurd rfl hne
  | cons w rest =>
    rw [List.sum_cons]
    have h1 := hpos w (List.mem_cons_self w rest)
    have h2 := sum_nonneg_of_forall_nonneg rest
      (fun y hy => le_of_lt (hpos y (List.mem_cons_of_mem w hy)))
    omega

theorem riskLoop_spec (rl : List (GoStr × Int)) (fs : List PIIDetectionResult)
    (hw : ∀ f ∈ fs, ∃ w, lookupRiskLevel rl f.riskLevel = some w ∧ 0 < w) :
    ∀ (t0 : Int) (l0 : GoStr) (m0 : Int),
      0 ≤ t0 →
      t0 + (fs.map (fun f => (lookupRiskLevel rl f.riskLevel).getD 0)).sum < 2 ^ 63 →
      (riskLoop rl fs t0 l0 m0).1
        = t0 + (fs.map (fun f => (lookupRiskLevel rl f.riskLevel).getD 0)).sum ∧
      (riskLoop rl fs t0 l0 m0).2.2
        = (fs.map (fun f => (lookupRiskLevel rl f.riskLevel).getD 0)).foldl max m0 ∧
      (((fs.map (fun f => (lookupRiskLevel rl f.riskLevel).getD 0)).foldl max m0 = m0 ∧
          (riskLoop rl fs t0 l0 m0).2.1 = l0) ∨
       (m0 < (fs.map (fun f => (lookupRiskLevel rl f.riskLevel).getD 0)).foldl max m0 ∧
        ∃ fmax, fs.find? (fun g => decide ((lookupRiskLevel rl g.riskLevel).getD 0
            = (fs.map (fun f => (lookupRiskLevel rl f.riskLevel).getD 0)).foldl max m0))
          = some fmax ∧
          (riskLoop rl fs t0 l0 m0).2.1 = fmax.riskLevel)) := by
  induction fs with
  | nil => intro t0 l0 m0 _ _; exact ⟨by simp [riskLoop], rfl, Or.inl ⟨rfl, rfl⟩⟩
  | cons f rest ih =>
    intro t0 l0 m0 ht0 hbd
    obtain ⟨w, hlk, hwpos⟩ := hw f (List.mem_cons_self f rest)
    have hrest := fun g hg => hw g (List.mem_cons_of_mem f hg)
    have hwf : (lookupRiskLevel rl f.riskLevel).getD 0 = w := by rw [hlk]; rfl
    have hnn : 0 ≤ (rest.map (fun f => (lookupRiskLevel rl f.riskLevel).getD 0)).sum := by
      refine sum_nonneg_of_forall_nonneg _ ?_
      intro x hx
      rcases List.mem_map.mp hx with ⟨g, hg, rfl⟩
      obtain ⟨w2, hlk2, hw2pos⟩ := hrest g hg
      rw [hlk2]
      exact le_of_lt hw2pos
    rw [List.map_cons, List.sum_cons, hwf] at hbd
    have hadd : goIntAdd t0 w = t0 + w := by
      unfold goIntAdd goIntWrap
      omega
    rw [riskLoop, hlk]
    dsimp only
    rw [List.map_cons, List.foldl_cons, List.sum_cons, hwf, List.find?_cons, hadd]
    by_cases hgt : w > m0
    · rw [if_pos hgt]
      have hmax : max m0 w = w := max_eq_right (le_of_lt hgt)
      rw [hmax]
      obtain ⟨ht, hm, htri⟩ := ih hrest (t0 + w) f.riskLevel w (by omega) (by omega)
      refine ⟨by rw [ht]; ring, hm, ?_⟩
      rcases htri with ⟨heq, hlab⟩ | ⟨hlt, fmax, hfind, hlab⟩
      · -- the rest never exceeds w: the head is the first maximum
        right
        refine ⟨by omega, f, ?_, hlab⟩
        have : decide ((lookupRiskLevel rl f.riskLevel).getD 0
            = (rest.map (fun f => (lookupRiskLevel rl f.riskLevel).getD 0)).foldl max w)
            = true := by
          rw [hwf, heq]; exact decide_eq_true rfl
        rw [this]
      · -- the rest attains a strictly larger maximum
        right
        refine ⟨by omega, fmax, ?_, hlab⟩
        have : decide ((lookupRiskLevel rl f.riskLevel).getD 0
            = (rest.map (fun f => (lookupRiskLevel rl f.riskLevel).getD 0)).foldl max w)
            = false := by
          rw [hwf]
          exact decide_eq_false (by omega)
        rw [this, hfind]
    · rw [if_neg hgt]
      have hmax : max m0 w = m0 := max_eq_left (by omega)
      rw [hmax]
      obtain ⟨ht, hm, htri⟩ := ih hrest (t0 + w) l0 m0 (by omega) (by omega)
      refine ⟨by rw [ht]; ring, hm, ?_⟩
      rcases htri with ⟨heq, hlab⟩ | ⟨hlt, fmax, hfind, hlab⟩
      · exact Or.inl ⟨heq, hlab⟩
      · right
        refine ⟨hlt, fmax, ?_, hlab⟩
        have : decide ((lookupRiskLevel rl f.riskLevel).getD 0
            = (rest.map (fun f => (lookupRiskLevel rl f.riskLevel).getD 0)).foldl max m0)
            = false := by
          rw [hwf]
          exact decide_eq_false (by omega)
        rw [this, hfind]

theorem riskLevelConfiguredPos_spec (cfg : PIIConfig) (f : PIIDetectionResult)
    (h : riskLevelConfiguredPos cfg f = true) :
    lookupRiskLevel cfg.riskLevels f.riskLevel = some (findingWeight cfg f) ∧
    0 < findingWeight cfg f := by
  unfold riskLevelConfiguredPos at h
  cases hlk : lookupRiskLevel cfg.riskLevels f.riskLevel with
  | none => rw [hlk] at h; cases h
  | some w =>
    rw [hlk] at h
    have hpos : 0 < w := of_decide_eq_true h
    have hfw : findingWeight cfg f = w := by rw [findingWeight, hlk]; rfl
    exact ⟨by rw [hfw], by rw [hfw]; exact hpos⟩

/-- C2 (amended): provided every finding's risk level is configured with a
positive weight and the weights' sum stays below 2 to the 63rd (so the Go int
accumulation never wraps), calculateRiskMetrics returns (0, NONE) exactly
when the findings list is empty, the risk score is the sum of the configured
weights of all findings, and the highest-risk label is the risk level of the
first finding attaining the single largest weight (first occurrence wins on
ties).  A configured weight of 0 instead leaves the initialization label LOW
in place — see the counterexample. -/
theorem C2_riskMetrics_spec (cfg : PIIConfig) (findings : List PIIDetectionResult)
    (hw : ∀ f ∈ findings, riskLevelConfiguredPos cfg f = true)
    (hbound : (findings.map (findingWeight cfg)).sum < 2 ^ 63) :
    (calculateRiskMetrics cfg findings).1 = (findings.map (findingWeight cfg)).sum ∧
    (calculateRiskMetrics cfg findings = (0, gs "NONE") ↔ findings = []) ∧
    (findings ≠ [] → ∃ fmax,
      findings.find? (fun f => decide (findingWeight cfg f = maxWeight cfg findings))
        = some fmax ∧
      (calculateRiskMetrics cfg findings).2 = fmax.riskLevel) := by
  have hex : ∀ f ∈ findings, ∃ w, lookupRiskLevel cfg.riskLevels f.riskLevel = some w ∧ 0 < w :=
    fun f hf => ⟨findingWeight cfg f, riskLevelConfiguredPos_spec cfg f (hw f hf)⟩
  by_cases hne : findings = []
  · subst hne
    exact ⟨rfl, by constructor <;> intro h <;> rfl, fun h => absurd rfl h⟩
  · have hlen : ¬ findings.length = 0 := by
      cases findings with
      | nil => exact absurd rfl hne
      | cons f rest => simp
    have hcalc : calculateRiskMetrics cfg findings
        = ((riskLoop cfg.riskLevels findings 0 (gs "LOW") 0).1,
           (riskLoop cfg.riskLevels findings 0 (gs "LOW") 0).2.1) := by
      unfold calculateRiskMetrics
      rw [if_neg hlen]
    have hwfun : (fun f => (lookupRiskLevel cfg.riskLevels f.riskLevel).getD 0)
        = findingWeight cfg := rfl
    obtain ⟨ht, hm, htri⟩ := riskLoop_spec cfg.riskLevels findings hex 0 (gs "LOW") 0
      (le_refl 0) (by rw [hwfun]; omega)
    have hsum : (calculateRiskMetrics cfg findings).1
        = (findings.map (findingWeight cfg)).sum := by
      rw [hcalc]
      show (riskLoop cfg.riskLevels findings 0 (gs "LOW") 0).1 = _
      rw [ht, hwfun]
      ring
    have hpossum : 0 < (findings.map (findingWeight cfg)).sum := by
      refine sum_pos_of_forall_pos _ (by simpa using hne) ?_
      intro w hw2
      rcases List.mem_map.mp hw2 with ⟨f, hf, rfl⟩
      exact (riskLevelConfiguredPos_spec cfg f (hw f hf)).2
    refine ⟨hsum, ?_, ?_⟩
    · constructor
      · intro heq
        have h1 : (calculateRiskMetrics cfg findings).1 = 0 := by rw [heq]
        rw [hsum] at h1
        omega
      · intro h; exact absurd h hne
    · intro _
      rcases htri with ⟨heq, _⟩ | ⟨_, fmax, hfind, hlab⟩
      · -- impossible: the running maximum strictly exceeds the initial 0
        exfalso
        cases findings with
        | nil => exact hne rfl
        | cons f rest =>
          have hf := (riskLevelConfiguredPos_spec cfg f
            (hw f (List.mem_cons_self f rest))).2
          have hmem : findingWeight cfg f
              ∈ (f :: rest).map (findingWeight cfg) :=
            List.mem_map.mpr ⟨f, List.mem_cons_self f rest, rfl⟩
          have hle := mem_le_foldl_max ((f :: rest).map (findingWeight cfg)) 0
            (findingWeight cfg f) hmem
          rw [hwfun] at heq
          omega
      · refine ⟨fmax, ?_, ?_⟩
        · rw [hwfun] at hfind
          exact hfind
        · rw [hcalc]
          exact hlab

/-- C2 witness: a four-finding list LOW, HIGH, MEDIUM, HIGH over the standard
weights — score 14, highest risk HIGH from the first of the two tied HIGH
findings. -/
theorem C2_riskMetrics_spec_witness :
    calculateRiskMetrics cfgEmail fsC2 = (14, gs "HIGH") := by
  have h := C2_riskMetrics_spec cfgEmail fsC2 (by decide) (by decide)
  obtain ⟨fmax, hfind, hsnd⟩ := h.2.2 (by decide)
  have hfst : (calculateRiskMetrics cfgEmail fsC2).1 = 14 := h.1.trans (by decide)
  have heval : fsC2.find? (fun f => decide (findingWeight cfgEmail f = maxWeight cfgEmail fsC2))
      = some (mkFieldBasedFinding fpEmail 0 (gs "email") (gs "a@b.com") (gs "request_headers")) := by
    decide
  rw [heval] at hfind
  cases hfind
  exact Prod.ext_iff.mpr ⟨hfst, hsnd.trans (by decide)⟩

/-- C2 counterexample: with MEDIUM configured at weight 0 and a single MEDIUM
finding, calculateRiskMetrics returns (0, LOW) — the highest-risk label is
not the risk level of the finding with the single largest weight (the unique
MEDIUM finding), and indeed names no finding of the list at all. -/
theorem C2_counterexample :
    calculateRiskMetrics cfgZeroWeight [fMediumZero] = (0, gs "LOW") ∧
    ([fMediumZero] : List PIIDetectionResult) ≠ [] ∧
    (∀ f ∈ [fMediumZero], (calculateRiskMetrics cfgZeroWeight [fMediumZero]).2
      ≠ f.riskLevel) := by
  refine ⟨by decide, by decide, by decide⟩

/-- C3 evidence: the headers of recAB1 and recAB2 are permutations of each
other — one Go map under its two possible range orders — and every other
record field is identical, yet the two analyses emit the findings in
different orders and report opposite highestRisk labels (the two findings tie
at weight 5 and first occurrence wins).  Go randomizes map range order on
every call, so AnalyzePIIInAPIData called twice on this record can return
either outcome: the claimed determinism fails on the code. -/
theorem C3_map_order_dependence :
    recAB1.headers.Perm recAB2.headers ∧
    (recAB1.apiEndpoint = recAB2.apiEndpoint ∧ recAB1.method = recAB2.method ∧
     recAB1.url = recAB2.url ∧ recAB1.requestBody = recAB2.requestBody ∧
     recAB1.responseBody = recAB2.responseBody) ∧
    (AnalyzePIIInAPIData cfgAB jpNum42 quOk puPathOnly 0 recAB1).findings
      ≠ (AnalyzePIIInAPIData cfgAB jpNum42 quOk puPathOnly 0 recAB2).findings ∧
    (AnalyzePIIInAPIData cfgAB jpNum42 quOk puPathOnly 0 recAB1).highestRisk
      ≠ (AnalyzePIIInAPIData cfgAB jpNum42 quOk puPathOnly 0 recAB2).highestRisk := by
  refine ⟨by decide, by decide, by decide, by decide⟩
